import Mathlib

/-!
# Verification of the semantic-release core against its specification

Shallow embedding of the release-orchestration core (`index.js`,
`lib/get-next-version.js`, `lib/get-releases-to-add.js`, `lib/get-last-release.js`,
`lib/verify.js`, `lib/branches/verify.js`) together with models of the external
`semver` library operations the code calls.  Machine integers do not occur:
every numeric quantity in the source is an unbounded JavaScript array index or
a semver component, modelled as `Nat`.
-/

namespace SemRel

/-! ## Semver model

The source manipulates versions as strings through the `semver` npm package
(`semver.inc`, `semver.prerelease`, `semver.compare`, `semver.lt`,
`semver.rcompare`).  We model a parsed semver 2.0.0 value structurally: a
prerelease identifier is either numeric or alphanumeric, and a version is
`major.minor.patch` plus a (possibly empty) prerelease identifier list.
Build metadata never influences any code path of this repository and is
omitted. -/

/-- A semver prerelease identifier: numeric (`1`) or alphanumeric (`beta`). -/
inductive PreId where
  | num (n : Nat)
  | str (s : String)
deriving DecidableEq, Repr

/-- A parsed semver 2.0.0 version value. -/
structure SemVer where
  major : Nat
  minor : Nat
  patch : Nat
  pre : List PreId
deriving DecidableEq, Repr

/-- Release types accepted by `semver.inc` on the code paths of this
repository (`analyzeCommits` results are validated to this set). -/
inductive RelType where
  | major
  | minor
  | patch
deriving DecidableEq, Repr

/-- Model of `semver.inc(version, type)` for `type ∈ {major, minor, patch}`,
following node-semver: a version that already carries prerelease identifiers
and whose lower components are zero is only *finalised* (the prerelease is
dropped) rather than incremented. -/
def semverInc (v : SemVer) : RelType → SemVer
  | .major =>
    if v.minor = 0 ∧ v.patch = 0 ∧ v.pre ≠ [] then
      ⟨v.major, 0, 0, []⟩
    else
      ⟨v.major + 1, 0, 0, []⟩
  | .minor =>
    if v.patch = 0 ∧ v.pre ≠ [] then
      ⟨v.major, v.minor, 0, []⟩
    else
      ⟨v.major, v.minor + 1, 0, []⟩
  | .patch =>
    if v.pre ≠ [] then
      ⟨v.major, v.minor, v.patch, []⟩
    else
      ⟨v.major, v.minor, v.patch + 1, []⟩

/-- Increment the rightmost numeric identifier of a prerelease list;
`none` when no identifier is numeric (node-semver `inc('pre')` core). -/
def bumpRightmostNum : List PreId → Option (List PreId)
  | [] => none
  | x :: xs =>
    match bumpRightmostNum xs with
    | some xs' => some (x :: xs')
    | none =>
      match x with
      | .num k => some (.num (k + 1) :: xs)
      | .str _ => none

/-- Model of `semver.inc(version, 'prerelease')`: on a version without
prerelease identifiers, bump the patch and start at prerelease `0`; otherwise
increment the rightmost numeric identifier, or append `0` when none is
numeric. -/
def semverIncPre (v : SemVer) : SemVer :=
  if v.pre = [] then
    ⟨v.major, v.minor, v.patch + 1, [.num 0]⟩
  else
    ⟨v.major, v.minor, v.patch, (bumpRightmostNum v.pre).getD (v.pre ++ [.num 0])⟩

/-- `true` when the string is a non-empty run of decimal digits, i.e. the
corresponding prerelease identifier is numeric. -/
def isDigits (s : String) : Bool :=
  s ≠ "" && s.toList.all (·.isDigit)

/-- Parse one dot-separated prerelease identifier. -/
def parsePreId (s : String) : PreId :=
  if isDigits s then .num (s.toNat?.getD 0) else .str s

/-- Parse a dash-suffix prerelease string (`"beta.0"`) into identifiers. -/
def parsePreIds (s : String) : List PreId :=
  (s.splitOn ".").map parsePreId

/-- Model of the template-literal append
`` `${semver.inc(...)}-${branch.prerelease}.0` `` used by
`get-next-version.js`: the incremented version (whose prerelease is empty) is
rendered, the branch prerelease identifier and a trailing `.0` are appended,
and the result is the version whose prerelease identifiers are the parse of
`p ++ ".0"`. -/
def appendPreZero (v : SemVer) (p : String) : SemVer :=
  ⟨v.major, v.minor, v.patch, parsePreIds (p ++ ".0")⟩

/-- Render a prerelease identifier back to its string form. -/
def renderPreId : PreId → String
  | .num n => toString n
  | .str s => s

/-- Render a version to its string form (used when building git tag names). -/
def renderSemVer (v : SemVer) : String :=
  toString v.major ++ "." ++ toString v.minor ++ "." ++ toString v.patch ++
    (if v.pre.isEmpty then "" else "-" ++ String.intercalate "." (v.pre.map renderPreId))

/-- semver 2.0.0 ordering on prerelease identifiers: numeric identifiers
compare numerically and are lower than alphanumeric ones; alphanumeric
identifiers compare lexically. -/
def comparePreId : PreId → PreId → Ordering
  | .num a, .num b => compare a b
  | .num _, .str _ => .lt
  | .str _, .num _ => .gt
  | .str a, .str b => compare a b

/-- semver 2.0.0 ordering on prerelease identifier lists: compared
left-to-right, a strict prefix is lower. -/
def comparePreList : List PreId → List PreId → Ordering
  | [], [] => .eq
  | [], _ :: _ => .lt
  | _ :: _, [] => .gt
  | a :: as, b :: bs =>
    match comparePreId a b with
    | .eq => comparePreList as bs
    | o => o

/-- Model of `semver.compare`: numeric components first; a version with
prerelease identifiers precedes the same version without them. -/
def semverCompare (a b : SemVer) : Ordering :=
  match compare a.major b.major with
  | .eq =>
    match compare a.minor b.minor with
    | .eq =>
      match compare a.patch b.patch with
      | .eq =>
        match a.pre, b.pre with
        | [], [] => .eq
        | [], _ :: _ => .gt
        | _ :: _, [] => .lt
        | _, _ => comparePreList a.pre b.pre
      | o => o
    | o => o
  | o => o

/-- Model of `semver.lt`. -/
def semverLt (a b : SemVer) : Bool :=
  semverCompare a b = .lt

/-! ## Branch, tag and release records

`lib/branches/normalize.js` (not part of this snapshot) equips every branch
with `name`, `type`, `channel`, `tags`, and — for prerelease branches — a
`prerelease` identifier, plus a semver `range` and, for maintenance branches,
a `merge-range`.  The pipeline only reads those fields, so the record below
is the exact shape `index.js`, `get-releases-to-add.js`, `get-last-release.js`
and `get-next-version.js` consume.  `channel` is `Option String` because the
default channel is the JavaScript value `undefined`. -/

/-- A release tag attached to a branch (output of the tag indexer). -/
structure RTag where
  version : SemVer
  channel : Option String
  gitTag : String
  gitHead : String
deriving DecidableEq, Repr

/-- A normalised branch record as consumed by the core. -/
structure Branch where
  name : String
  btype : String
  channel : Option String
  tags : List RTag
  prerelease : Option String
  range : String
  mergeRange : Option String
deriving DecidableEq, Repr

/-- JavaScript renders `undefined` as the string `"undefined"` inside a
template literal; `get-next-version.js` interpolates `branch.prerelease`
without a guard, so a missing identifier would surface as that string. -/
def Branch.prereleaseStr (b : Branch) : String :=
  match b.prerelease with
  | some s => s
  | none => "undefined"

/-- The non-empty result of `get-last-release.js`: the destructured fields of
the highest filtered tag plus the rendered `name`. -/
structure FoundRelease where
  version : SemVer
  gitTag : String
  gitHead : String
  channel : Option String
  name : String
deriving DecidableEq, Repr

/-- `get-last-release.js` returns either such a record or the empty object
`{}`; the callers only test `lastRelease.version` / `lastRelease.gitHead`
truthiness, which the `Option` models. -/
abbrev LastRelease := Option FoundRelease

/-! ## `lib/get-next-version.js` -/

/-- `FIRST_RELEASE` from `lib/definitions/constants.js`.  Modelled from the
spec: that file is not part of this snapshot; §4.4 fixes the first release to
`1.0.0`. -/
def firstRelease : SemVer := ⟨1, 0, 0, []⟩

/-- Embedding of `lib/get-next-version.js`: on a prerelease branch, a last
version that already carries prerelease identifiers is bumped with
`semver.inc(v, 'prerelease')`; otherwise the version is bumped by the release
type, with `-<prerelease>.0` appended on prerelease branches; with no last
release the result is `1.0.0` (plus `-<prerelease>.0` on prerelease
branches). -/
def getNextVersion (branch : Branch) (rtype : RelType) (lastRelease : LastRelease) : SemVer :=
  match lastRelease with
  | some l =>
    if branch.btype = "prerelease" then
      if l.version.pre ≠ [] then semverIncPre l.version
      else appendPreZero (semverInc l.version rtype) branch.prereleaseStr
    else
      semverInc l.version rtype
  | none =>
    if branch.btype = "prerelease" then appendPreZero firstRelease branch.prereleaseStr
    else firstRelease

/-! ## Claim C1: the specification's next-version rule

The claim's case split, written exactly as the claim states it: the
prerelease segment is bumped only when the last version carries a *matching*
prerelease tag (its first identifier equals the branch's `prerelease`
identifier); a prerelease branch whose last version has *no* prerelease
appends `-<prerelease>.0` after the bump; every *other* combination — which
includes a prerelease branch whose last version carries a non-matching
prerelease tag — bumps by the release type alone. -/

/-- `true` when the first prerelease identifier of `v` is the branch's
configured prerelease identifier. -/
def hasMatchingPre (v : SemVer) (b : Branch) : Bool :=
  v.pre.head? = some (.str b.prereleaseStr)

/-- The next-version function exactly as claim C1 states it (see above). -/
def claimC1NextVersion (b : Branch) (t : RelType) (last : LastRelease) : SemVer :=
  match last with
  | none =>
    if b.btype = "prerelease" then appendPreZero firstRelease b.prereleaseStr
    else firstRelease
  | some l =>
    if b.btype = "prerelease" ∧ hasMatchingPre l.version b then
      semverIncPre l.version
    else if b.btype = "prerelease" ∧ l.version.pre = [] then
      appendPreZero (semverInc l.version t) b.prereleaseStr
    else
      semverInc l.version t

/-- The amended next-version rule: identical to claim C1 except that on a
prerelease branch *any* prerelease identifiers on the last version (matching
the branch's identifier or not) cause the prerelease segment to be bumped,
and the bump-by-type-alone case applies only to non-prerelease branches. -/
def amendedC1NextVersion (b : Branch) (t : RelType) (last : LastRelease) : SemVer :=
  match last with
  | none =>
    if b.btype = "prerelease" then appendPreZero firstRelease b.prereleaseStr
    else firstRelease
  | some l =>
    if b.btype = "prerelease" ∧ l.version.pre ≠ [] then
      semverIncPre l.version
    else if b.btype = "prerelease" ∧ l.version.pre = [] then
      appendPreZero (semverInc l.version t) b.prereleaseStr
    else
      semverInc l.version t

/-! ## String helpers shared by the tag-name model -/

/-- Replace every occurrence of a pattern in a character list (leftmost,
non-overlapping), the semantics of substituting the `${version}` placeholder
of a tag-format template.  The fuel argument makes the recursion structural;
each step consumes at least one character, so the list length is enough
fuel. -/
def replaceCharsFuel (pat rep : List Char) : Nat → List Char → List Char
  | 0, l => l
  | _ + 1, [] => []
  | fuel + 1, c :: cs =>
    if pat ≠ [] ∧ pat.isPrefixOf (c :: cs) then
      rep ++ replaceCharsFuel pat rep fuel ((c :: cs).drop pat.length)
    else
      c :: replaceCharsFuel pat rep fuel cs

/-- Replace every occurrence of `pat` in `s` by `rep`. -/
def jsReplaceAll (s pat rep : String) : String :=
  ⟨replaceCharsFuel pat.toList rep.toList s.toList.length s.toList⟩

/-- Modelled from the spec: `makeTag` from `lib/utils.js` is missing from
this snapshot.  Per §3 and the glossary, a tag name is the `tagFormat`
template rendered with the version, with an `@<channel>` suffix appended when
releasing on a non-default (truthy) channel. -/
def makeTag (tagFormat : String) (v : SemVer) (channel : Option String := none) : String :=
  jsReplaceAll tagFormat "${version}" (renderSemVer v) ++
    (match channel with
     | some c => if c = "" then "" else "@" ++ c
     | none => "")

/-! ## `lib/get-last-release.js` and `lib/get-releases-to-add.js` -/

/-- Non-strict ascending tag order derived from the `semver.compare`
comparator passed to `Array.prototype.sort` in `get-releases-to-add.js`;
insertion sort with a non-strict relation is stable, matching the
deterministic model we take for the engine's stable comparator sort. -/
def tagAsc (a b : RTag) : Prop := semverCompare a.version b.version ≠ Ordering.gt

instance : DecidableRel tagAsc := fun a b => by unfold tagAsc; infer_instance

/-- Non-strict descending tag order derived from the `semver.rcompare`
comparator passed to `sort` in `get-last-release.js`. -/
def tagDesc (a b : RTag) : Prop := semverCompare b.version a.version ≠ Ordering.gt

instance : DecidableRel tagDesc := fun a b => by unfold tagDesc; infer_instance

/-- Embedding of `lib/get-last-release.js`: keep the branch tags that are
allowed on the branch type (prerelease branches accept prerelease versions),
optionally only those strictly below `before`, sort them highest-first and
return the destructured head, or the empty record. -/
def getLastRelease (branch : Branch) (tagFormat : String) (before : Option SemVer) :
    LastRelease :=
  let sorted :=
    List.insertionSort tagDesc
      ((branch.tags.filter
          (fun t => decide (branch.btype = "prerelease") || t.version.pre.isEmpty)).filter
        (fun t =>
          match before with
          | none => true
          | some b => semverLt t.version b))
  match sorted.head? with
  | some t =>
    if t.gitTag = "" then none
    else some ⟨t.version, t.gitTag, t.gitHead, t.channel, makeTag tagFormat t.version none⟩
  | none => none

/-- Model of the `semver-diff` library (`^2.0.0`): the first differing
component of two versions, `none` when the first is not lower. -/
def semverDiff (a b : SemVer) : Option String :=
  if semverCompare a b = .gt then none
  else if a.major ≠ b.major then some "major"
  else if a.minor ≠ b.minor then some "minor"
  else if a.patch ≠ b.patch then some "patch"
  else if a.pre ≠ b.pre then some "prerelease"
  else none

/-- A release record (`currentRelease` / `nextRelease` shape): release type,
version, channel, git tag name, tag-format name and commit sha. -/
structure ReleaseInfo where
  rtype : Option String
  version : SemVer
  channel : Option String
  gitTag : String
  name : String
  gitHead : String
deriving DecidableEq, Repr

/-- One entry of the back-port list built by `get-releases-to-add.js`. -/
structure ReleaseToAdd where
  lastRelease : LastRelease
  currentRelease : ReleaseInfo
  nextRelease : ReleaseInfo
deriving DecidableEq, Repr

/-- The options record consumed by `run` (after `get-config.js` has
normalised branches and filled the defaults). -/
structure Options where
  dryRun : Bool
  noCi : Bool
  branches : List Branch
  tagFormat : String
  repositoryUrl : String
deriving DecidableEq, Repr

/-- Model of lodash `uniq` (SameValueZero, first occurrence kept), applied in
`get-releases-to-add.js` to tag objects.  Tag objects are compared
structurally: two parsed tags of one branch are never structurally equal in
this code base, because equal version and channel would render to the same
git tag name. -/
def jsUniq {α : Type} [DecidableEq α] : List α → List α
  | [] => []
  | a :: rest => a :: (jsUniq rest).filter (· ≠ a)

/-- Model of `Array.prototype.findIndex` (−1 when absent) composed with
`slice(index + 1)` as in `get-releases-to-add.js`: when the active branch is
not in the configured list, `findIndex` gives −1 and `slice(0)` keeps the
whole list. -/
def sliceAfterIndex {α : Type} (p : α → Bool) (l : List α) : List α :=
  match l.findIdx? p with
  | some i => l.drop (i + 1)
  | none => l

/-- The `.map` body of `get-releases-to-add.js`: the last, current and next
release records for one back-ported tag of the active branch. -/
def mkReleaseToAdd (branch : Branch) (tagFormat : String) (higher : Branch) (t : RTag) :
    ReleaseToAdd :=
  let lastRelease := getLastRelease branch tagFormat (some t.version)
  let rtype : Option String :=
    match lastRelease with
    | some lr => semverDiff lr.version t.version
    | none => some "major"
  let name := makeTag tagFormat t.version none
  { lastRelease := lastRelease,
    currentRelease := { rtype, version := t.version, channel := higher.channel,
                        gitTag := t.gitTag, name, gitHead := t.gitHead },
    nextRelease := { rtype, version := t.version, channel := branch.channel,
                     gitTag := makeTag tagFormat t.version branch.channel, name,
                     gitHead := t.gitHead } }

/-- Embedding of `lib/get-releases-to-add.js`: for every higher-ranked
non-prerelease branch, the unique tags of the active branch carrying that
branch's channel which the `every`-condition does not exclude, sorted
ascending and mapped to release records, accumulated with `reduce`. -/
def getReleasesToAdd (branch : Branch) (opts : Options) : List ReleaseToAdd :=
  ((sliceAfterIndex (fun b => decide (b.name = branch.name)) opts.branches).filter
      (fun b => decide (b.btype ≠ "prerelease"))).foldl
    (fun releases higher =>
      releases ++
        ((List.insertionSort tagAsc
            ((jsUniq (branch.tags.filter (fun t => decide (t.channel = higher.channel)))).filter
              (fun tag => branch.tags.all
                (fun t => decide (t.version ≠ tag.version) ||
                  decide (t.channel = higher.channel) ||
                  decide (t.channel ≠ branch.channel))))).map
          (mkReleaseToAdd branch opts.tagFormat higher)))
    []

/-! ## Claim C2: the back-port list -/

/-- Non-strict ascending order on back-port entries by next-release version
(the order the claim asserts for the whole emitted list). -/
def relAsc (a b : ReleaseToAdd) : Prop :=
  semverCompare a.nextRelease.version b.nextRelease.version ≠ Ordering.gt

instance : DecidableRel relAsc := fun a b => by unfold relAsc; infer_instance

/-- The back-port list exactly as claim C2 states it: per higher
non-prerelease branch, one entry for every version tagged on the active
branch with the higher branch's channel such that no tag of the active branch
carries that version on the active branch's own channel; the resulting list
in ascending version order. -/
def claimC2ReleasesToAdd (branch : Branch) (opts : Options) : List ReleaseToAdd :=
  List.insertionSort relAsc
    (((sliceAfterIndex (fun b => decide (b.name = branch.name)) opts.branches).filter
        (fun b => decide (b.btype ≠ "prerelease"))).flatMap
      (fun higher =>
        (branch.tags.filter
            (fun t => decide (t.channel = higher.channel) &&
              branch.tags.all
                (fun u => !(decide (u.version = t.version) &&
                  decide (u.channel = branch.channel))))).map
          (mkReleaseToAdd branch opts.tagFormat higher)))

/-- The amended back-port description: groups per higher non-prerelease
branch in configured order — not globally sorted — each group holding one
entry for every tag of the active branch on the higher channel whose version
is not also tagged on the active branch's own channel *by a different
channel than the higher one*, the group sorted ascending. -/
def amendedC2ReleasesToAdd (branch : Branch) (opts : Options) : List ReleaseToAdd :=
  ((sliceAfterIndex (fun b => decide (b.name = branch.name)) opts.branches).filter
      (fun b => decide (b.btype ≠ "prerelease"))).flatMap
    (fun higher =>
      (List.insertionSort tagAsc
          (branch.tags.filter
            (fun t => decide (t.channel = higher.channel) &&
              branch.tags.all
                (fun u => !(decide (u.version = t.version) &&
                  decide (u.channel = branch.channel) &&
                  decide (u.channel ≠ higher.channel)))))).map
        (mkReleaseToAdd branch opts.tagFormat higher))

/-- A concrete prerelease branch whose identifier is `beta`. -/
def betaBranch : Branch :=
  { name := "beta", btype := "prerelease", channel := some "beta", tags := [],
    prerelease := some "beta", range := ">=1.0.0", mergeRange := none }

/-- The concrete last release `1.0.0-alpha.1` (a non-matching prerelease for
`betaBranch`). -/
def alphaLast : FoundRelease :=
  { version := ⟨1, 0, 0, [.str "alpha", .num 1]⟩, gitTag := "v1.0.0-alpha.1",
    gitHead := "aaa111", channel := some "alpha", name := "v1.0.0-alpha.1" }

/-- Concrete input for claim C2: the active branch's channel coincides with
the first higher branch's channel, and the higher-channel tags are not in
ascending version order across the two higher branches. -/
def c2Tag1 : RTag :=
  { version := ⟨2, 0, 0, []⟩, channel := some "c1", gitTag := "v2.0.0@c1", gitHead := "h2" }

/-- Second concrete tag for the C2 counterexample. -/
def c2Tag2 : RTag :=
  { version := ⟨1, 0, 0, []⟩, channel := some "c2", gitTag := "v1.0.0@c2", gitHead := "h1" }

/-- The active branch of the C2 counterexample (channel `c1`). -/
def c2Branch : Branch :=
  { name := "master", btype := "release", channel := some "c1", tags := [c2Tag1, c2Tag2],
    prerelease := none, range := ">=1.0.0", mergeRange := none }

/-- First higher branch of the C2 counterexample, sharing channel `c1`. -/
def c2Higher1 : Branch :=
  { name := "next", btype := "release", channel := some "c1", tags := [],
    prerelease := none, range := ">=2.0.0", mergeRange := none }

/-- Second higher branch of the C2 counterexample (channel `c2`). -/
def c2Higher2 : Branch :=
  { name := "later", btype := "release", channel := some "c2", tags := [],
    prerelease := none, range := ">=3.0.0", mergeRange := none }

/-- Options for the C2 counterexample. -/
def c2Opts : Options :=
  { dryRun := false, noCi := false, branches := [c2Branch, c2Higher1, c2Higher2],
    tagFormat := "v${version}", repositoryUrl := "https://host.null/o/r.git" }

/-! ## `lib/verify.js` and `lib/branches/verify.js`

Both verifiers run over the raw configured branch list, whose entries are
arbitrary JavaScript values.  The model keeps exactly the observations the
two files make: whether an entry is a plain object, its truthiness, its
`name` field; whether that name is a string, its trimmed truthiness, and —
for the duplicate detection — strict equality (`===`) and the string
conversion that the default `Array.prototype.sort` comparison uses.  The
default sort orders *only* by string conversion (ECMAScript requires nothing
more, and since ES2019 requires the sort to be stable); the model is a stable
insertion sort keyed by the string conversion alone, so values whose string
conversions coincide keep their relative order and strictly-equal values need
*not* end up adjacent. -/

/-- A value in a branch entry's `name` field: a string, or a non-string value
carrying an object identity (distinct objects carry distinct identities;
`===` on objects compares identities), its truthiness, and its string
conversion (the default-sort key). -/
inductive JsName where
  | str (s : String)
  | nonstr (id : Nat) (truthy : Bool) (key : String)
deriving DecidableEq, Repr

/-- A configured branch entry: not a plain object (only its truthiness is
ever observed), or a plain object with an optional `name` field. -/
inductive BranchEntry where
  | nonobj (truthy : Bool)
  | obj (name : Option JsName)
deriving DecidableEq, Repr

/-- lodash `isPlainObject`. -/
def BranchEntry.isPlainObj : BranchEntry → Bool
  | .nonobj _ => false
  | .obj _ => true

/-- JavaScript truthiness of the entry (`filter(Boolean)`, `branch && …`). -/
def BranchEntry.truthy : BranchEntry → Bool
  | .nonobj t => t
  | .obj _ => true

/-- The `name` field (`({name}) => name` destructuring; `undefined` on values
without the field). -/
def BranchEntry.nameField : BranchEntry → Option JsName
  | .nonobj _ => none
  | .obj n => n

/-- JavaScript truthiness of a name value. -/
def JsName.truthy : JsName → Bool
  | .str s => s ≠ ""
  | .nonstr _ t _ => t

/-- `true` exactly for string name values (`isString`). -/
def JsName.isStr : JsName → Bool
  | .str _ => true
  | .nonstr _ _ _ => false

/-- `true` for characters JavaScript's `String.prototype.trim` strips. -/
def isWs (c : Char) : Bool :=
  c = ' ' || c = '\t' || c = '\n' || c = '\r'

/-- Truthiness of `s.trim()`: some character survives trimming. -/
def jsTrimTruthy (s : String) : Bool :=
  s.toList.any (fun c => !(isWs c))

/-- The `EINVALIDBRANCH` condition shared verbatim by the two verifiers:
`!isPlainObject(branch) || !isString(branch.name) || !branch.name.trim()`. -/
def BranchEntry.invalidShape (b : BranchEntry) : Bool :=
  !b.isPlainObj ||
    (match b.nameField with
     | some (.str s) => !(jsTrimTruthy s)
     | _ => true)

/-- The structured errors raised by `lib/verify.js` / `lib/branches/verify.js`
(`lib/get-error.js` wraps the code and payload; it is not in this snapshot,
so the payload fields the call sites pass are kept directly). -/
inductive VErr where
  | nogitrepo
  | norepourl
  | invalidtagformat (tagFormat : String)
  | tagnoversion (tagFormat : String)
  | invalidbranch (branch : BranchEntry)
  | duplicatebranches (duplicates : List JsName)
  | invalidbranchname (name : String)
deriving DecidableEq, Repr

/-- Structural lexicographic order on character lists (kernel-computable
model of string comparison). -/
def lexLe : List Char → List Char → Bool
  | [], _ => true
  | _ :: _, [] => false
  | a :: as, b :: bs => if a = b then lexLe as bs else decide (a < b)

/-- The default-sort key of a name value: its string conversion, and nothing
else — JavaScript's default sort compares `String(x)` only, so two distinct
values with equal string conversions are tied. -/
def JsName.sortKey : JsName → List Char
  | .str s => s.toList
  | .nonstr _ _ k => k.toList

/-- The order the model sorts name values by: string conversion only.  It is
total and transitive but *not* antisymmetric — `str "a"` and a non-string
object converting to `"a"` are mutually ≤ without being equal. -/
def nameLe (a b : JsName) : Prop := lexLe a.sortKey b.sortKey = true

instance : DecidableRel nameLe := fun a b => by unfold nameLe; infer_instance

/-- The name list fed into the duplicate detection:
`[...branches].filter(Boolean).map(({name}) => name).filter(Boolean)`. -/
def dupNames (branches : List BranchEntry) : List JsName :=
  ((branches.filter BranchEntry.truthy).filterMap BranchEntry.nameField).filter JsName.truthy

/-- `Array.prototype.filter` with the `(val, idx, arr)` callback signature:
the generalised worker carrying the current index. -/
def jsFilterIdxGo {α : Type} (f : α → Nat → List α → Bool) (arr : List α) :
    Nat → List α → List α
  | _, [] => []
  | i, a :: rest =>
    (if f a i arr then [a] else []) ++ jsFilterIdxGo f arr (i + 1) rest

/-- `Array.prototype.filter` with the `(val, idx, arr)` callback. -/
def jsFilterIdx {α : Type} (f : α → Nat → List α → Bool) (l : List α) : List α :=
  jsFilterIdxGo f l 0 l

/-- JavaScript `===` between possibly-`undefined` name values
(`undefined === undefined` is `true`). -/
def jsEqU (x y : Option JsName) : Bool :=
  match x, y with
  | some a, some b => decide (a = b)
  | none, none => true
  | _, _ => false

/-- `arr[idx - 1]` — `undefined` at index `0` (JavaScript `arr[-1]`). -/
def arrPrev {α : Type} (l : List α) : Nat → Option α
  | 0 => none
  | i + 1 => l.get? i

/-- The duplicate filter predicate of `lib/verify.js`:
`arr[idx] === arr[idx + 1] && arr[idx] !== arr[idx - 1]`. -/
def dupPredCfg (_ : JsName) (i : Nat) (arr : List JsName) : Bool :=
  jsEqU (arr.get? i) (arr.get? (i + 1)) && !(jsEqU (arr.get? i) (arrPrev arr i))

/-- The duplicate filter predicate of `lib/branches/verify.js`:
`val === arr[idx + 1] && val !== arr[idx - 1]`. -/
def dupPredStandalone (val : JsName) (i : Nat) (arr : List JsName) : Bool :=
  jsEqU (some val) (arr.get? (i + 1)) && !(jsEqU (some val) (arrPrev arr i))

/-- The sorted name list both duplicate detections operate on. -/
def sortedNames (branches : List BranchEntry) : List JsName :=
  List.insertionSort nameLe (dupNames branches)

/-- The `EINVALIDBRANCH` errors (one per offending entry, in order). -/
def invalidBranchErrs (branches : List BranchEntry) : List VErr :=
  branches.filterMap (fun b =>
    if b.invalidShape then some (.invalidbranch b) else none)

/-- The `EINVALIDBRANCHNAME` errors: entries that are truthy with a truthy
trimmed string name that fails `git check-ref-format` (the oracle
`nameOk`). -/
def invalidNameErrs (nameOk : String → Bool) (branches : List BranchEntry) : List VErr :=
  branches.filterMap (fun b =>
    match b.nameField with
    | some (.str s) =>
      if b.truthy && jsTrimTruthy s && !(nameOk s) then some (.invalidbranchname s) else none
    | _ => none)

/-- The `EDUPLICATEBRANCHES` error of the standalone branches verifier. -/
def dupErrsStandalone (branches : List BranchEntry) : List VErr :=
  match jsFilterIdx dupPredStandalone (sortedNames branches) with
  | [] => []
  | d => [.duplicatebranches d]

/-- The `EDUPLICATEBRANCHES` error of the configuration verifier. -/
def dupErrsCfg (branches : List BranchEntry) : List VErr :=
  match jsFilterIdx dupPredCfg (sortedNames branches) with
  | [] => []
  | d => [.duplicatebranches d]

/-- Embedding of `lib/branches/verify.js`: the aggregated error list (the
function throws an `AggregateError` of it when non-empty). -/
def branchesVerifyErrors (nameOk : String → Bool) (branches : List BranchEntry) : List VErr :=
  invalidBranchErrs branches ++ dupErrsStandalone branches ++ invalidNameErrs nameOk branches

/-- Count the spaces of a rendered tag format
(`(template(tagFormat)({version: ' '}).match(/ /g) || []).length`). -/
def countSpaces (s : String) : Nat :=
  (s.toList.filter (· = ' ')).length

/-- The repository-level errors of `lib/verify.js`: `ENOGITREPO` when the
working directory is not a git repository, *else* `ENOREPOURL` when the
repository URL is missing. -/
def repoErrs (isGitRepo repoUrlTruthy : Bool) : List VErr :=
  if !isGitRepo then [.nogitrepo]
  else if !repoUrlTruthy then [.norepourl]
  else []

/-- The tag-format errors of `lib/verify.js`: the format rendered with
`0.0.0` must be a valid git tag name (oracle `tagNameOk`), and the format
rendered with a single space must contain exactly one space. -/
def tagFormatErrs (tagFormat : String) (tagNameOk : String → Bool) : List VErr :=
  (if !(tagNameOk (jsReplaceAll tagFormat "${version}" "0.0.0")) then
    [.invalidtagformat tagFormat]
  else []) ++
    (if countSpaces (jsReplaceAll tagFormat "${version}" " ") ≠ 1 then
      [.tagnoversion tagFormat]
    else [])

/-- Embedding of `lib/verify.js`: the aggregated error list, in push order
(repository checks, tag-format checks, then the branch validation block that
duplicates `lib/branches/verify.js` except for its duplicate-filter callback
spelling). -/
def configVerifyErrors (isGitRepo repoUrlTruthy : Bool) (tagFormat : String)
    (tagNameOk nameOk : String → Bool) (branches : List BranchEntry) : List VErr :=
  repoErrs isGitRepo repoUrlTruthy ++ tagFormatErrs tagFormat tagNameOk ++
    invalidBranchErrs branches ++ dupErrsCfg branches ++ invalidNameErrs nameOk branches

/-- A `git check-ref-format` oracle accepting every name (used by concrete
witness inputs). -/
def alwaysOk : String → Bool := fun _ => true

/-- A concrete branch list with a duplicated name (`dev` twice). -/
def c10Bs : List BranchEntry :=
  [.obj (some (.str "dev")), .obj (some (.str "dev")), .obj (some (.str "main"))]

/-- A concrete branch list whose name values are the string `"a"` four times
around one non-string object whose string conversion is also `"a"`: the
string-keyed stable sort leaves the object between the two pairs of equal
strings, so the first-of-run duplicate filter keeps `"a"` twice. -/
def c10CexBs : List BranchEntry :=
  [.obj (some (.str "a")), .obj (some (.str "a")),
    .obj (some (.nonstr 0 true "a")),
    .obj (some (.str "a")), .obj (some (.str "a"))]

/-- The structural first-of-run scan equivalent to the indexed duplicate
filter: keep an element when the next element equals it and the previous one
(tracked in the accumulator) does not. -/
def firstOfRuns : Option JsName → List JsName → List JsName
  | _, [] => []
  | prev, a :: rest =>
    (if jsEqU (some a) rest.head? && !(jsEqU (some a) prev) then [a] else []) ++
      firstOfRuns (some a) rest

/-! ## The pipeline (`index.js`)

`run` is embedded as a deterministic interpreter over an environment that
fixes the outcome of every external call (CI detection, git commands, and
each plugin step; back-port-loop steps receive the release entry they are
invoked for, so distinct iterations may behave differently).  The interpreter
returns the trace of observable events — plugin-step invocations and git
tag/push commands — together with `run`'s settled value. -/

/-- A single structured error: the shape `lib/get-error.js` (missing from
this snapshot) produces, reduced to the `semanticRelease` marker the handler
filters on and the error code. -/
structure SErr where
  semanticRelease : Bool
  code : String
deriving DecidableEq, Repr

/-- A thrown JavaScript value: a single error or an `AggregateError`. -/
inductive RunErr where
  | single (e : SErr)
  | aggregate (es : List SErr)
deriving DecidableEq, Repr

/-- Modelled from the spec: `extractErrors` from `lib/utils.js` is missing
from this snapshot; §7 describes aggregates as flattened into their member
errors before the `semanticRelease` split. -/
def extractErrors : RunErr → List SErr
  | .single e => [e]
  | .aggregate es => es

/-- `getError(code, …)`: a `semanticRelease`-marked error with the code. -/
def mkErr (code : String) : SErr := ⟨true, code⟩

/-- The error-code string of a configuration-verifier error. -/
def VErr.codeStr : VErr → String
  | .nogitrepo => "ENOGITREPO"
  | .norepourl => "ENOREPOURL"
  | .invalidtagformat _ => "EINVALIDTAGFORMAT"
  | .tagnoversion _ => "ETAGNOVERSION"
  | .invalidbranch _ => "EINVALIDBRANCH"
  | .duplicatebranches _ => "EDUPLICATEBRANCHES"
  | .invalidbranchname _ => "EINVALIDBRANCHNAME"

/-- The `analyzeCommits` release-type string (`nextRelease.type`). -/
def relTypeStr : RelType → String
  | .major => "major"
  | .minor => "minor"
  | .patch => "patch"

/-- Observable events of one invocation: plugin-step invocations and the git
tag/push commands (`evTag` carries the tag name and the commit the tag ends
up pointing at). -/
inductive Ev where
  | evVerifyConditions
  | evGenerateNotes
  | evAnalyzeCommits
  | evVerifyRelease
  | evPrepare
  | evAddChannel
  | evTag (name : String) (commit : String)
  | evPush (url : String) (branchName : String)
  | evPublish (nr : ReleaseInfo)
  | evSuccess
  | evFail
deriving DecidableEq, Repr

/-- The value `run` settles with: JavaScript `undefined`, `false`, `true`, or
a thrown error. -/
inductive RunRes where
  | undef
  | retFalse
  | retTrue
  | thrown (e : RunErr)
deriving DecidableEq, Repr

/-- The environment of one invocation (see the section header). -/
structure Env where
  isCi : Bool
  isPr : Bool
  ciBranch : String
  isGitRepo : Bool
  verifyTagNameOk : String → Bool
  verifyBranchNameOk : String → Bool
  gitAuthUrl : String
  verifyAuthOk : Bool
  branchUpToDate : Bool
  verifyConditionsRes : Option RunErr
  satisfies : SemVer → String → Bool
  loopCommits : ReleaseToAdd → Option RunErr
  loopNotes : ReleaseToAdd → Except RunErr String
  loopTagOk : ReleaseToAdd → Option RunErr
  loopPushOk : ReleaseToAdd → Option RunErr
  loopAddChannel : ReleaseToAdd → Option RunErr
  loopSuccess : ReleaseToAdd → Option RunErr
  lastCommitsOk : Option RunErr
  analyzeRes : Except RunErr (Option RelType)
  gitHead : String
  verifyReleaseRes : Option RunErr
  notesRes : Except RunErr String
  prepareRes : Option RunErr
  headAfterPrepare : String
  notesRes2 : Except RunErr String
  tagOk : Option RunErr
  pushOk : Option RunErr
  publishRes : Option RunErr
  successRes : Option RunErr

/-- The effective `options.dryRun` after the gate's mutation: `run` forces
dry-run when not in CI unless `noCi` (or an explicit `dryRun`) is set. -/
def effDryRun (env : Env) (opts : Options) : Bool :=
  if !env.isCi && !opts.dryRun && !opts.noCi then true else opts.dryRun

/-- A normalised branch seen as the raw value the configuration verifier
inspects: a plain object with a string name. -/
def Branch.toEntry (b : Branch) : BranchEntry :=
  .obj (some (.str b.name))

/-- One iteration of the `pEachSeries` back-port loop in `run`: when the
branch has a truthy `merge-range` the next version does not satisfy, the
`EINVALIDLTSMERGE` error is collected and the iteration does nothing else;
otherwise the iteration runs commits → generateNotes → tag (at the entry's
recorded `gitHead`) → push → addChannel → success, any of which may throw and
abort the loop. -/
def loopStep (env : Env) (branch : Branch) (repoUrl : String) (r : ReleaseToAdd) :
    List Ev × Option RunErr × List SErr :=
  if (match branch.mergeRange with
      | some mr => mr ≠ "" && !(env.satisfies r.nextRelease.version mr)
      | none => false) then
    ([], none, [mkErr "EINVALIDLTSMERGE"])
  else
    match env.loopCommits r with
    | some e => ([], some e, [])
    | none =>
      match env.loopNotes r with
      | .error e => ([.evGenerateNotes], some e, [])
      | .ok _ =>
        match env.loopTagOk r with
        | some e =>
          ([.evGenerateNotes, .evTag r.nextRelease.gitTag r.nextRelease.gitHead], some e, [])
        | none =>
          match env.loopPushOk r with
          | some e =>
            ([.evGenerateNotes, .evTag r.nextRelease.gitTag r.nextRelease.gitHead,
              .evPush repoUrl branch.name], some e, [])
          | none =>
            match env.loopAddChannel r with
            | some e =>
              ([.evGenerateNotes, .evTag r.nextRelease.gitTag r.nextRelease.gitHead,
                .evPush repoUrl branch.name, .evAddChannel], some e, [])
            | none =>
              match env.loopSuccess r with
              | some e =>
                ([.evGenerateNotes, .evTag r.nextRelease.gitTag r.nextRelease.gitHead,
                  .evPush repoUrl branch.name, .evAddChannel, .evSuccess], some e, [])
              | none =>
                ([.evGenerateNotes, .evTag r.nextRelease.gitTag r.nextRelease.gitHead,
                  .evPush repoUrl branch.name, .evAddChannel, .evSuccess], none, [])

/-- The back-port loop: sequential; a throw aborts the remaining iterations
(and the collected `EINVALIDLTSMERGE` errors are never aggregated, because
the throw propagates before the length check). -/
def runLoop (env : Env) (branch : Branch) (repoUrl : String) :
    List ReleaseToAdd → List Ev × Option RunErr × List SErr
  | [] => ([], none, [])
  | r :: rest =>
    match loopStep env branch repoUrl r with
    | (evs, some e, _) => (evs, some e, [])
    | (evs, none, errs) =>
      match runLoop env branch repoUrl rest with
      | (evs', oe, errs') => (evs ++ evs', oe, errs ++ errs')

/-- Embedding of `run` from `index.js`: the event trace and settled value.
The prepare step includes the behaviour modelled from the spec for the
missing `lib/definitions/plugins.js`: after `prepare`, `nextRelease.gitHead`
is refreshed from HEAD (a prepare plugin may have committed) and the notes
are regenerated (§4.5 step 7); the subsequent `tag(nextRelease.gitTag)` call
passes no ref, so git resolves the default `HEAD` — the refreshed commit. -/
def runMain (env : Env) (opts : Options) : List Ev × RunRes :=
  if env.isCi && env.isPr && !opts.noCi then ([], .undef)
  else
    let dryRun := effDryRun env opts
    let verrs := configVerifyErrors env.isGitRepo (decide (opts.repositoryUrl ≠ ""))
      opts.tagFormat env.verifyTagNameOk env.verifyBranchNameOk
      (opts.branches.map Branch.toEntry)
    if !verrs.isEmpty then
      ([], .thrown (.aggregate (verrs.map (fun v => mkErr v.codeStr))))
    else
      match opts.branches.find? (fun b => decide (b.name = env.ciBranch)) with
      | none => ([], .retFalse)
      | some branch =>
        let repoUrl := env.gitAuthUrl
        if !env.verifyAuthOk then
          if !env.branchUpToDate then ([], .retFalse)
          else ([], .thrown (.single (mkErr "EGITNOPERMISSION")))
        else
          match env.verifyConditionsRes with
          | some e => ([.evVerifyConditions], .thrown e)
          | none =>
            let lr := runLoop env branch repoUrl (getReleasesToAdd branch opts)
            let levs := lr.1
            match lr.2.1 with
            | some e => (Ev.evVerifyConditions :: levs, .thrown e)
            | none =>
              if !lr.2.2.isEmpty then
                (Ev.evVerifyConditions :: levs, .thrown (.aggregate lr.2.2))
              else
                let lastRelease := getLastRelease branch opts.tagFormat none
                match env.lastCommitsOk with
                | some e => (Ev.evVerifyConditions :: levs, .thrown e)
                | none =>
                  let evs2 := Ev.evVerifyConditions :: levs ++ [Ev.evAnalyzeCommits]
                  match env.analyzeRes with
                  | .error e => (evs2, .thrown e)
                  | .ok none => (evs2, .undef)
                  | .ok (some t) =>
                    let version := getNextVersion branch t lastRelease
                    if !(env.satisfies version branch.range) then
                      (evs2, .thrown (.single (mkErr "EINVALIDNEXTVERSION")))
                    else
                      let nr : ReleaseInfo :=
                        { rtype := some (relTypeStr t), version := version,
                          channel := branch.channel, gitHead := env.gitHead,
                          gitTag := makeTag opts.tagFormat version branch.channel,
                          name := makeTag opts.tagFormat version none }
                      let evs3 := evs2 ++ [Ev.evVerifyRelease]
                      match env.verifyReleaseRes with
                      | some e => (evs3, .thrown e)
                      | none =>
                        if dryRun then
                          match env.notesRes with
                          | .error e => (evs3 ++ [Ev.evGenerateNotes], .thrown e)
                          | .ok _ => (evs3 ++ [Ev.evGenerateNotes], .retTrue)
                        else
                          match env.notesRes with
                          | .error e => (evs3 ++ [Ev.evGenerateNotes], .thrown e)
                          | .ok _ =>
                            let evs4 := evs3 ++ [Ev.evGenerateNotes, Ev.evPrepare]
                            match env.prepareRes with
                            | some e => (evs4, .thrown e)
                            | none =>
                              let nr2 := { nr with gitHead := env.headAfterPrepare }
                              let evs5 := evs4 ++ [Ev.evGenerateNotes]
                              match env.notesRes2 with
                              | .error e => (evs5, .thrown e)
                              | .ok _ =>
                                let evs6 := evs5 ++ [Ev.evTag nr2.gitTag env.headAfterPrepare]
                                match env.tagOk with
                                | some e => (evs6, .thrown e)
                                | none =>
                                  let evs7 := evs6 ++ [Ev.evPush repoUrl branch.name]
                                  match env.pushOk with
                                  | some e => (evs7, .thrown e)
                                  | none =>
                                    let evs8 := evs7 ++ [Ev.evPublish nr2]
                                    match env.publishRes with
                                    | some e => (evs8, .thrown e)
                                    | none =>
                                      let evs9 := evs8 ++ [Ev.evSuccess]
                                      match env.successRes with
                                      | some e => (evs9, .thrown e)
                                      | none => (evs9, .retTrue)

/-- The surrounding `module.exports` handler of `index.js`: a `getConfig`
error is logged and re-thrown without `fail`; a `run` error triggers `fail`
only outside (effective) dry-run and only when `semanticRelease`-marked
errors remain after the filter; the error is re-thrown in every case. -/
def moduleRun (env : Env) (cfg : Except RunErr Options) : List Ev × RunRes :=
  match cfg with
  | .error e => ([], .thrown e)
  | .ok opts =>
    match runMain env opts with
    | (tr, .thrown e) =>
      if effDryRun env opts then (tr, .thrown e)
      else if !((extractErrors e).filter (fun s => s.semanticRelease)).isEmpty then
        (tr ++ [Ev.evFail], .thrown e)
      else (tr, .thrown e)
    | out => out

/-- The next-release record as the publish path sees it after the
spec-modelled prepare refresh: the computed next version and rendered tag
names with `gitHead` refreshed from HEAD after `prepare`. -/
def finalNextRelease (env : Env) (opts : Options) (branch : Branch) (t : RelType) :
    ReleaseInfo :=
  let version := getNextVersion branch t (getLastRelease branch opts.tagFormat none)
  { rtype := some (relTypeStr t), version := version, channel := branch.channel,
    gitHead := env.headAfterPrepare,
    gitTag := makeTag opts.tagFormat version branch.channel,
    name := makeTag opts.tagFormat version none }

/-- The events a back-port-loop iteration may emit. -/
def Ev.isLoopEv : Ev → Bool
  | .evGenerateNotes => true
  | .evTag _ _ => true
  | .evPush _ _ => true
  | .evAddChannel => true
  | .evSuccess => true
  | _ => false

/-! ### Concrete inputs for the pipeline witnesses -/

/-- A minimal release branch without tags. -/
def simpleBranch : Branch :=
  { name := "master", btype := "release", channel := none, tags := [],
    prerelease := none, range := ">=1.0.0", mergeRange := none }

/-- Options for the pipeline witnesses. -/
def okOpts : Options :=
  { dryRun := false, noCi := false, branches := [simpleBranch],
    tagFormat := "v${version}", repositoryUrl := "https://host.null/o/r.git" }

/-- An environment in which every external call succeeds. -/
def okEnv : Env :=
  { isCi := true, isPr := false, ciBranch := "master", isGitRepo := true,
    verifyTagNameOk := fun _ => true, verifyBranchNameOk := fun _ => true,
    gitAuthUrl := "https://x@host.null/o/r.git", verifyAuthOk := true,
    branchUpToDate := true, verifyConditionsRes := none,
    satisfies := fun _ _ => true, loopCommits := fun _ => none,
    loopNotes := fun _ => .ok "", loopTagOk := fun _ => none,
    loopPushOk := fun _ => none, loopAddChannel := fun _ => none,
    loopSuccess := fun _ => none, lastCommitsOk := none,
    analyzeRes := .ok (some .minor), gitHead := "head0",
    verifyReleaseRes := none, notesRes := .ok "notes", prepareRes := none,
    headAfterPrepare := "head1", notesRes2 := .ok "notes2", tagOk := none,
    pushOk := none, publishRes := none, successRes := none }

/-- The environment of the C3 witness: the next version fails the range. -/
def c3Env : Env := { okEnv with satisfies := fun _ _ => false }

/-- The environment of the C6 witness: a pull-request run. -/
def c6Env : Env := { okEnv with isPr := true }

/-- The environment of the C7 witness: push authorisation fails while the
local branch is behind the remote. -/
def c7Env : Env := { okEnv with verifyAuthOk := false, branchUpToDate := false }

/-- The environment of the C8 witness: `verifyConditions` throws a
`semanticRelease`-marked error. -/
def c8Env : Env :=
  { okEnv with verifyConditionsRes := some (.single (mkErr "EPLUGINBOOM")) }

/-- The options of the C8 witness: explicit dry-run. -/
def c8Opts : Options := { okOpts with dryRun := true }

-- ===================== Theorems =====================

/-- C1 counterexample: on the prerelease branch `beta` with last release
`1.0.0-alpha.1` and release type `minor`, the code bumps the non-matching
prerelease segment to `1.0.0-alpha.2`, while the claim's rule — whose
"otherwise" case covers a non-matching prerelease tag — demands
`semver.inc(1.0.0-alpha.1, minor) = 1.0.0`. -/
theorem c1_counterexample :
    getNextVersion betaBranch RelType.minor (some alphaLast) = ⟨1, 0, 0, [.str "alpha", .num 2]⟩ ∧
    claimC1NextVersion betaBranch RelType.minor (some alphaLast) = ⟨1, 0, 0, []⟩ ∧
    getNextVersion betaBranch RelType.minor (some alphaLast) ≠
      claimC1NextVersion betaBranch RelType.minor (some alphaLast) := by
  refine ⟨by decide, by decide, by decide⟩

/-- C1 (amended): for every branch, release type and last release,
`getNextVersion` computes exactly the amended rule: on a prerelease branch a
last version with any prerelease identifiers gets its prerelease segment
bumped; a prerelease branch over a plain last version bumps by the type and
appends `-<prerelease>.0`; a non-prerelease branch bumps by the type; and an
empty last release yields `1.0.0` (or `1.0.0-<prerelease>.0`). -/
theorem c1_next_version_amended (b : Branch) (t : RelType) (last : LastRelease) :
    getNextVersion b t last = amendedC1NextVersion b t last := by
  cases last with
  | none => rfl
  | some l =>
    by_cases hb : b.btype = "prerelease" <;>
      by_cases hp : l.version.pre = [] <;>
        simp [getNextVersion, amendedC1NextVersion, hb, hp]

/-! ### C2 lemmas and theorems -/

/-- `reduce` with list append from the empty accumulator is `bind`. -/
theorem foldl_append_eq_bind {α β : Type} (l : List α) (f : α → List β) (init : List β) :
    l.foldl (fun acc x => acc ++ f x) init = init ++ l.flatMap f := by
  induction l generalizing init with
  | nil => simp
  | cons a rest ih => simp [List.foldl_cons, ih, List.flatMap]

/-- lodash `uniq` is the identity on duplicate-free lists. -/
theorem jsUniq_eq_self {α : Type} [DecidableEq α] (l : List α) (h : l.Nodup) :
    jsUniq l = l := by
  induction l with
  | nil => rfl
  | cons a rest ih =>
    have hmem : a ∉ rest := (List.nodup_cons.mp h).1
    have hrest : rest.Nodup := (List.nodup_cons.mp h).2
    have hfil : rest.filter (· ≠ a) = rest := by
      apply List.filter_eq_self.mpr
      intro b hb
      simp only [decide_eq_true_eq, ne_eq]
      intro hba
      exact hmem (hba ▸ hb)
    rw [jsUniq, ih hrest, hfil]

/-- C2 counterexample: on this input the code emits versions `[2.0.0, 1.0.0]`
— the entry for `2.0.0` exists although the active branch carries a tag with
version `2.0.0` on its own channel (the claim demands no such entry, but the
`every`-condition degenerates to a tautology when the higher channel equals
the active channel), and the list is not in ascending version order.  The
list exactly as the claim describes it is `[1.0.0]`. -/
theorem c2_counterexample :
    (getReleasesToAdd c2Branch c2Opts).map (fun r => r.nextRelease.version) =
      [⟨2, 0, 0, []⟩, ⟨1, 0, 0, []⟩] ∧
    (claimC2ReleasesToAdd c2Branch c2Opts).map (fun r => r.nextRelease.version) =
      [⟨1, 0, 0, []⟩] ∧
    getReleasesToAdd c2Branch c2Opts ≠ claimC2ReleasesToAdd c2Branch c2Opts := by
  refine ⟨by decide, by decide, by decide⟩

/-- C2 (amended): when the active branch's tags are pairwise distinct on
`(version, channel)` — guaranteed in the code base because both determine the
git tag name — the back-port list is, for each higher-ranked non-prerelease
branch in configured order, a group containing exactly one entry for every
version tagged on the active branch with that higher channel and not also
tagged on the active branch's own channel under a channel different from the
higher one, each group sorted in ascending version order and the groups
concatenated in branch order. -/
theorem c2_releases_to_add_amended (branch : Branch) (opts : Options)
    (h : (branch.tags.map (fun t => (t.version, t.channel))).Nodup) :
    getReleasesToAdd branch opts = amendedC2ReleasesToAdd branch opts := by
  unfold getReleasesToAdd amendedC2ReleasesToAdd
  rw [foldl_append_eq_bind, List.nil_append]
  apply List.flatMap_congr
  intro higher _
  have hnodup : (branch.tags.filter
      (fun t => decide (t.channel = higher.channel))).Nodup :=
    (List.Nodup.of_map _ h).filter _
  rw [jsUniq_eq_self _ hnodup, List.filter_filter]
  refine congrArg
    (fun l => (List.insertionSort tagAsc l).map (mkReleaseToAdd branch opts.tagFormat higher)) ?_
  apply List.filter_congr
  intro t _
  have hall : ∀ u : RTag,
      (decide (u.version ≠ t.version) || decide (u.channel = higher.channel) ||
        decide (u.channel ≠ branch.channel)) =
      (!(decide (u.version = t.version) && decide (u.channel = branch.channel) &&
        decide (u.channel ≠ higher.channel))) := by
    intro u
    by_cases h1 : u.version = t.version <;>
      by_cases h2 : u.channel = branch.channel <;>
        by_cases h3 : u.channel = higher.channel <;> simp [h1, h2, h3]
  have hall2 : (branch.tags.all
      (fun u => decide (u.version ≠ t.version) || decide (u.channel = higher.channel) ||
        decide (u.channel ≠ branch.channel))) =
      (branch.tags.all
        (fun u => !(decide (u.version = t.version) && decide (u.channel = branch.channel) &&
          decide (u.channel ≠ higher.channel)))) := by
    have hfun : (fun u : RTag => decide (u.version ≠ t.version) ||
        decide (u.channel = higher.channel) || decide (u.channel ≠ branch.channel)) =
        (fun u : RTag => !(decide (u.version = t.version) &&
          decide (u.channel = branch.channel) && decide (u.channel ≠ higher.channel))) :=
      funext hall
    rw [hfun]
  rw [hall2, Bool.and_comm]

/-- C2 (amended) witness: the counterexample input satisfies the
distinct-(version, channel) hypothesis, and the code's list equals the
amended description on it. -/
theorem c2_releases_to_add_amended_witness :
    (c2Branch.tags.map (fun t => (t.version, t.channel))).Nodup ∧
    getReleasesToAdd c2Branch c2Opts = amendedC2ReleasesToAdd c2Branch c2Opts :=
  ⟨by decide, c2_releases_to_add_amended c2Branch c2Opts (by decide)⟩

/-! ### Order lemmas for the name sort -/

/-- `lexLe` is total. -/
theorem lexLe_total : ∀ a b : List Char, lexLe a b = true ∨ lexLe b a = true
  | [], _ => Or.inl rfl
  | _ :: _, [] => Or.inr rfl
  | a :: as, b :: bs => by
    by_cases h : a = b
    · subst h
      simpa [lexLe] using lexLe_total as bs
    · rcases lt_trichotomy a b with h1 | h1 | h1
      · exact Or.inl (by simp [lexLe, h, h1])
      · exact absurd h1 h
      · exact Or.inr (by simp [lexLe, Ne.symm h, h1])

/-- `lexLe` is transitive. -/
theorem lexLe_trans : ∀ a b c : List Char,
    lexLe a b = true → lexLe b c = true → lexLe a c = true
  | [], _, _, _, _ => rfl
  | _ :: _, [], _, h1, _ => by simp [lexLe] at h1
  | _ :: _, _ :: _, [], _, h2 => by simp [lexLe] at h2
  | a :: as, b :: bs, c :: cs, h1, h2 => by
    by_cases hab : a = b <;> by_cases hbc : b = c
    · subst hab; subst hbc
      simp only [lexLe, if_pos rfl] at h1 h2 ⊢
      exact lexLe_trans as bs cs h1 h2
    · subst hab
      simp only [lexLe, if_pos rfl] at h1
      simp only [lexLe, if_neg hbc, decide_eq_true_eq] at h2 ⊢
      exact h2
    · subst hbc
      simp only [lexLe, if_neg hab, decide_eq_true_eq] at h1 ⊢
      exact h1
    · simp only [lexLe, if_neg hab, if_neg hbc, decide_eq_true_eq] at h1 h2
      have hac : a < c := lt_trans h1 h2
      simp only [lexLe, if_neg (ne_of_lt hac), decide_eq_true_eq]
      exact hac

/-- `lexLe` is antisymmetric. -/
theorem lexLe_antisymm : ∀ a b : List Char,
    lexLe a b = true → lexLe b a = true → a = b
  | [], [], _, _ => rfl
  | [], _ :: _, _, h2 => by simp [lexLe] at h2
  | _ :: _, [], h1, _ => by simp [lexLe] at h1
  | a :: as, b :: bs, h1, h2 => by
    by_cases hab : a = b
    · subst hab
      simp only [lexLe, if_pos rfl] at h1 h2
      rw [lexLe_antisymm as bs h1 h2]
    · simp only [lexLe, if_neg hab, if_neg (Ne.symm hab), decide_eq_true_eq] at h1 h2
      exact absurd h2 (lt_asymm h1)

/-- `nameLe` is antisymmetric on *string* name values: mutual ≤ means equal
sort keys, and for strings the sort key is the whole value.  (On non-string
values it is not: distinct objects may share a string conversion.) -/
theorem nameLe_antisymm_str {a b : JsName} (ha : a.isStr = true) (hb : b.isStr = true)
    (h1 : nameLe a b) (h2 : nameLe b a) : a = b := by
  cases a with
  | nonstr i t k => simp [JsName.isStr] at ha
  | str s =>
    cases b with
    | nonstr i t k => simp [JsName.isStr] at hb
    | str u =>
      have hk : s.toList = u.toList := lexLe_antisymm _ _ h1 h2
      have : s = u := by
        cases s; cases u
        exact congrArg String.mk (by simpa [String.toList] using hk)
      rw [this]

/-! ### The two duplicate filters coincide, and their output has no repeats -/

/-- Worker lemma: at matching indices the two duplicate-filter callbacks
compute the same value, so the indexed filters agree. -/
theorem filterIdxGo_pred_eq (arr : List JsName) :
    ∀ (suf : List JsName) (i : Nat), arr.drop i = suf →
      jsFilterIdxGo dupPredCfg arr i suf = jsFilterIdxGo dupPredStandalone arr i suf := by
  intro suf
  induction suf with
  | nil => intro i _; rfl
  | cons a rest ih =>
    intro i hdrop
    have hget : arr.get? i = some a := by
      rw [List.get?_eq_getElem?, ← List.head?_drop, hdrop]
      rfl
    have hrest : arr.drop (i + 1) = rest := by
      rw [← List.tail_drop, hdrop]
      rfl
    have hpred : dupPredCfg a i arr = dupPredStandalone a i arr := by
      simp only [dupPredCfg, dupPredStandalone, hget]
    rw [jsFilterIdxGo, jsFilterIdxGo, hpred, ih (i + 1) hrest]

/-- The duplicate filter of `lib/verify.js` (`arr[idx] === …`) and the one of
`lib/branches/verify.js` (`val === …`) return the same list on every
input. -/
theorem jsFilterIdx_pred_eq (l : List JsName) :
    jsFilterIdx dupPredCfg l = jsFilterIdx dupPredStandalone l :=
  filterIdxGo_pred_eq l l 0 (by simp)

/-- The two `EDUPLICATEBRANCHES` computations coincide. -/
theorem dupErrs_eq (bs : List BranchEntry) : dupErrsCfg bs = dupErrsStandalone bs := by
  unfold dupErrsCfg dupErrsStandalone
  rw [jsFilterIdx_pred_eq]

/-- The indexed duplicate filter is the structural first-of-run scan. -/
theorem filterIdxGo_firstOfRuns (arr : List JsName) :
    ∀ (suf : List JsName) (i : Nat), arr.drop i = suf →
      jsFilterIdxGo dupPredStandalone arr i suf = firstOfRuns (arrPrev arr i) suf := by
  intro suf
  induction suf with
  | nil => intro i _; rfl
  | cons a rest ih =>
    intro i hdrop
    have hget : arr.get? i = some a := by
      rw [List.get?_eq_getElem?, ← List.head?_drop, hdrop]
      rfl
    have hrest : arr.drop (i + 1) = rest := by
      rw [← List.tail_drop, hdrop]
      rfl
    have hnext : arr.get? (i + 1) = rest.head? := by
      rw [List.get?_eq_getElem?, ← List.head?_drop, hrest]
    have hprev : arrPrev arr (i + 1) = some a := hget
    rw [jsFilterIdxGo, firstOfRuns, ih (i + 1) hrest, hprev]
    simp only [dupPredStandalone, hnext]

/-- The standalone duplicate filter as a first-of-run scan. -/
theorem jsFilterIdx_eq_firstOfRuns (l : List JsName) :
    jsFilterIdx dupPredStandalone l = firstOfRuns none l :=
  filterIdxGo_firstOfRuns l l 0 (by simp)

/-- On a sorted list *of string values* the first-of-run scan keeps each
value at most once; the invariant also records that every kept value occurs
in the list and differs from the tracked predecessor.  The all-strings
hypothesis is essential: distinct non-string objects sharing a string
conversion defeat antisymmetry, and the scan can then keep a value twice
(see the C10 counterexample). -/
theorem firstOfRuns_nodup : ∀ (l : List JsName) (prev : Option JsName),
    List.Sorted nameLe l →
    (∀ x ∈ l, x.isStr = true) →
    (∀ p, prev = some p → p.isStr = true ∧ ∀ x ∈ l, nameLe p x) →
    (firstOfRuns prev l).Nodup ∧
      ∀ x ∈ firstOfRuns prev l, x ∈ l ∧ ∀ p, prev = some p → x ≠ p := by
  intro l
  induction l with
  | nil =>
    intro prev _ _ _
    exact ⟨List.nodup_nil, by simp [firstOfRuns]⟩
  | cons a rest ih =>
    intro prev hsort hstr hprev
    have hsort' : rest.Sorted nameLe := hsort.of_cons
    have hrel : ∀ x ∈ rest, nameLe a x := List.rel_of_sorted_cons hsort
    have hstrA : a.isStr = true := hstr a (List.mem_cons_self _ _)
    have hstr' : ∀ x ∈ rest, x.isStr = true :=
      fun x hx => hstr x (List.mem_cons_of_mem _ hx)
    obtain ⟨ihnd, ihmem⟩ := ih (some a) hsort' hstr' (by
      intro p hp
      cases hp
      exact ⟨hstrA, fun x hx => hrel x hx⟩)
    constructor
    · rw [firstOfRuns]
      by_cases hc : (jsEqU (some a) rest.head? && !(jsEqU (some a) prev)) = true
      · rw [if_pos hc]
        simp only [List.singleton_append, List.nodup_cons]
        exact ⟨fun hmem => (ihmem a hmem).2 a rfl rfl, ihnd⟩
      · rw [if_neg hc]
        simpa using ihnd
    · intro x hx
      rw [firstOfRuns] at hx
      rcases List.mem_append.mp hx with hx1 | hx2
      · by_cases hc : (jsEqU (some a) rest.head? && !(jsEqU (some a) prev)) = true
        · rw [if_pos hc] at hx1
          have hxa : x = a := by simpa using hx1
          subst hxa
          refine ⟨List.mem_cons_self _ _, ?_⟩
          intro p hp hxp
          subst hp
          have := (Bool.and_elim_right hc)
          simp only [jsEqU, Bool.not_eq_true', decide_eq_false_iff_not] at this
          exact this hxp
        · rw [if_neg hc] at hx1
          simp at hx1
      · obtain ⟨hxr, hxa⟩ := ihmem x hx2
        refine ⟨List.mem_cons_of_mem _ hxr, ?_⟩
        intro p hp hxp
        subst hp
        have hpa : nameLe p a := (hprev p rfl).2 a (List.mem_cons_self _ _)
        have hpstr : p.isStr = true := (hprev p rfl).1
        have hax : nameLe a x := hrel x hxr
        have hap : a = p := nameLe_antisymm_str hstrA hpstr (hxp ▸ hax) hpa
        exact hxa a rfl (hxp.trans hap.symm)

/-- When every name value fed into the duplicate detection is a string, the
duplicates list reported by the standalone verifier has no repeated name. -/
theorem dupList_nodup (bs : List BranchEntry)
    (h : ∀ n ∈ dupNames bs, JsName.isStr n = true) :
    (jsFilterIdx dupPredStandalone (sortedNames bs)).Nodup := by
  rw [jsFilterIdx_eq_firstOfRuns]
  haveI : IsTotal JsName nameLe := ⟨fun a b => lexLe_total _ _⟩
  haveI : IsTrans JsName nameLe := ⟨fun _ _ _ h1 h2 => lexLe_trans _ _ _ h1 h2⟩
  have hs : List.Sorted nameLe (sortedNames bs) := List.sorted_insertionSort _ _
  have hmem : ∀ x ∈ sortedNames bs, x.isStr = true := fun x hx =>
    h x ((List.perm_insertionSort nameLe (dupNames bs)).mem_iff.mp hx)
  exact (firstOfRuns_nodup _ none hs hmem (by simp)).1

/-! ### Shape lemmas for the verifier error segments -/

/-- Every `EINVALIDBRANCH` segment element is an `invalidbranch` error. -/
theorem mem_invalidBranchErrs {e : VErr} {bs : List BranchEntry}
    (h : e ∈ invalidBranchErrs bs) : ∃ b, e = VErr.invalidbranch b := by
  simp only [invalidBranchErrs, List.mem_filterMap] at h
  obtain ⟨b, _, hb⟩ := h
  split at hb
  · exact ⟨b, (Option.some.inj hb).symm⟩
  · exact absurd hb (by simp)

/-- Every `EINVALIDBRANCHNAME` segment element is an `invalidbranchname`
error. -/
theorem mem_invalidNameErrs {e : VErr} {nameOk : String → Bool} {bs : List BranchEntry}
    (h : e ∈ invalidNameErrs nameOk bs) : ∃ s, e = VErr.invalidbranchname s := by
  simp only [invalidNameErrs, List.mem_filterMap] at h
  obtain ⟨b, _, hb⟩ := h
  split at hb
  · split at hb
    · exact ⟨_, (Option.some.inj hb).symm⟩
    · exact absurd hb (by simp)
  · exact absurd hb (by simp)

/-- Every `EDUPLICATEBRANCHES` segment element is a `duplicatebranches`
error. -/
theorem mem_dupErrsCfg {e : VErr} {bs : List BranchEntry}
    (h : e ∈ dupErrsCfg bs) : ∃ d, e = VErr.duplicatebranches d := by
  unfold dupErrsCfg at h
  split at h
  · exact absurd h (by simp)
  · exact ⟨_, by simpa using h⟩

/-- Every tag-format segment element concerns the tag format. -/
theorem mem_tagFormatErrs {e : VErr} {tf : String} {tOk : String → Bool}
    (h : e ∈ tagFormatErrs tf tOk) :
    e = VErr.invalidtagformat tf ∨ e = VErr.tagnoversion tf := by
  unfold tagFormatErrs at h
  rcases List.mem_append.mp h with h1 | h1
  · split at h1
    · exact Or.inl (by simpa using h1)
    · exact absurd h1 (by simp)
  · split at h1
    · exact Or.inr (by simpa using h1)
    · exact absurd h1 (by simp)

/-- C9: `lib/verify.js` never reports `ENOGITREPO` and `ENOREPOURL` in the
same aggregate — at most one error of the pair occurs in the error list: the
missing-repository-URL check sits in the `else` branch of the
not-a-git-repository check, and no other segment produces either code. -/
theorem c9_repo_errors_exclusive (g r : Bool) (tf : String) (tOk nOk : String → Bool)
    (bs : List BranchEntry) :
    ((configVerifyErrors g r tf tOk nOk bs).filter
      (fun e => decide (e = VErr.nogitrepo) || decide (e = VErr.norepourl))).length ≤ 1 := by
  have hfil : ∀ (l : List VErr),
      (∀ e ∈ l, e ≠ VErr.nogitrepo ∧ e ≠ VErr.norepourl) →
      l.filter (fun e => decide (e = VErr.nogitrepo) || decide (e = VErr.norepourl)) = [] := by
    intro l hl
    apply List.filter_eq_nil_iff.mpr
    intro e he
    have := hl e he
    simp [this.1, this.2]
  have h1 : (tagFormatErrs tf tOk).filter
      (fun e => decide (e = VErr.nogitrepo) || decide (e = VErr.norepourl)) = [] := by
    apply hfil
    intro e he
    rcases mem_tagFormatErrs he with h | h <;> simp [h]
  have h2 : (invalidBranchErrs bs).filter
      (fun e => decide (e = VErr.nogitrepo) || decide (e = VErr.norepourl)) = [] := by
    apply hfil
    intro e he
    obtain ⟨b, hb⟩ := mem_invalidBranchErrs he
    simp [hb]
  have h3 : (dupErrsCfg bs).filter
      (fun e => decide (e = VErr.nogitrepo) || decide (e = VErr.norepourl)) = [] := by
    apply hfil
    intro e he
    obtain ⟨d, hd⟩ := mem_dupErrsCfg he
    simp [hd]
  have h4 : (invalidNameErrs nOk bs).filter
      (fun e => decide (e = VErr.nogitrepo) || decide (e = VErr.norepourl)) = [] := by
    apply hfil
    intro e he
    obtain ⟨s, hs⟩ := mem_invalidNameErrs he
    simp [hs]
  unfold configVerifyErrors
  simp only [List.filter_append, h1, h2, h3, h4, List.append_nil]
  cases g with
  | false => simp [repoErrs]
  | true => cases r <;> simp [repoErrs]

/-- C10 counterexample: on the branch list whose names are
`['a', 'a', objA, 'a', 'a']` with `String(objA) = 'a'`, the string-keyed
stable sort leaves the non-string object between the two pairs of equal
strings; the duplicate filter (`val === arr[idx+1] && val !== arr[idx-1]`,
with `===` false between the string and the object) then keeps `'a'` at
index 0 *and* at index 3, so the standalone verifier reports
`EDUPLICATEBRANCHES` with the duplicated name `'a'` listed twice — refuting
the claim's assertion that each duplicated name is listed exactly once.
(By `jsFilterIdx_pred_eq` the configuration verifier reports the same
list.) -/
theorem c10_counterexample :
    jsFilterIdx dupPredStandalone (sortedNames c10CexBs) =
      [JsName.str "a", JsName.str "a"] ∧
    VErr.duplicatebranches [JsName.str "a", JsName.str "a"] ∈
      branchesVerifyErrors alwaysOk c10CexBs ∧
    ¬ List.Nodup [JsName.str "a", JsName.str "a"] := by
  refine ⟨by decide, by decide, by decide⟩

/-- C10 (amended): the branch-validation block embedded in `lib/verify.js`
and the standalone `lib/branches/verify.js` are equivalent — the
configuration verifier's error list is exactly its repository and tag-format
segments followed by the standalone verifier's list, so both report the same
`EINVALIDBRANCH`, `EDUPLICATEBRANCHES` and `EINVALIDBRANCHNAME` errors — and,
*when every name value reaching the duplicate detection is a string*, every
reported `EDUPLICATEBRANCHES` error lists each duplicated name exactly once
(non-string names sharing a string conversion can make the list repeat a
name, see the counterexample). -/
theorem c10_branch_validation_equiv (g r : Bool) (tf : String) (tOk nOk : String → Bool)
    (bs : List BranchEntry) :
    configVerifyErrors g r tf tOk nOk bs =
      repoErrs g r ++ tagFormatErrs tf tOk ++ branchesVerifyErrors nOk bs ∧
    ((∀ n ∈ dupNames bs, JsName.isStr n = true) →
      ∀ ds, VErr.duplicatebranches ds ∈ branchesVerifyErrors nOk bs → ds.Nodup) := by
  constructor
  · simp only [configVerifyErrors, branchesVerifyErrors, dupErrs_eq, List.append_assoc]
  · intro hstr ds hds
    unfold branchesVerifyErrors at hds
    simp only [List.append_assoc] at hds
    rcases List.mem_append.mp hds with h | h
    · obtain ⟨b, hb⟩ := mem_invalidBranchErrs h
      simp at hb
    rcases List.mem_append.mp h with h | h
    · unfold dupErrsStandalone at h
      split at h
      · exact absurd h (by simp)
      · have hds2 : VErr.duplicatebranches ds = VErr.duplicatebranches
            (jsFilterIdx dupPredStandalone (sortedNames bs)) := by
          rename_i heq
          simpa [heq] using h
        have := dupList_nodup bs hstr
        rwa [← VErr.duplicatebranches.inj hds2] at this
    · obtain ⟨s, hs⟩ := mem_invalidNameErrs h
      simp at hs

/-- C10 witness: on a branch list with `dev` configured twice (all names
strings), the configuration verifier's errors are its repository and
tag-format segments followed by the standalone verifier's errors, and the
single reported duplicate list `[dev]` has no repeats. -/
theorem c10_branch_validation_equiv_witness :
    configVerifyErrors true true "v${version}" alwaysOk alwaysOk c10Bs =
      repoErrs true true ++ tagFormatErrs "v${version}" alwaysOk ++
        branchesVerifyErrors alwaysOk c10Bs ∧
    List.Nodup [JsName.str "dev"] :=
  ⟨(c10_branch_validation_equiv true true "v${version}" alwaysOk alwaysOk c10Bs).1,
    (c10_branch_validation_equiv true true "v${version}" alwaysOk alwaysOk c10Bs).2
      (by decide) [JsName.str "dev"] (by decide)⟩

/-! ### Pipeline lemmas and claim theorems -/

/-- Every event a loop iteration emits is a loop event. -/
theorem loopStep_events (env : Env) (branch : Branch) (repoUrl : String) (r : ReleaseToAdd) :
    ∀ e ∈ (loopStep env branch repoUrl r).1, e.isLoopEv = true := by
  intro e he
  unfold loopStep at he
  repeat' split at he
  all_goals
    simp only [List.mem_cons, List.mem_singleton, List.not_mem_nil, or_false, false_or] at he
  all_goals rcases he with rfl | rfl | rfl | rfl | rfl <;> rfl

/-- Every event the back-port loop emits is a loop event. -/
theorem runLoop_events (env : Env) (branch : Branch) (repoUrl : String) :
    ∀ (rs : List ReleaseToAdd) (e : Ev), e ∈ (runLoop env branch repoUrl rs).1 →
      e.isLoopEv = true := by
  intro rs
  induction rs with
  | nil => intro e he; simp [runLoop] at he
  | cons r rest ih =>
    intro e he
    unfold runLoop at he
    split at he
    · rename_i evs er ignored heq
      have := loopStep_events env branch repoUrl r
      rw [heq] at this
      exact this e he
    · rename_i evs er heq
      split at he
      rename_i evs' oe errs' heq'
      rcases List.mem_append.mp he with h | h
      · have := loopStep_events env branch repoUrl r
        rw [heq] at this
        exact this e h
      · have := ih e
        rw [heq'] at this
        exact this h

/-- C6: a run triggered from CI by a pull request (without `noCi`) settles
with `undefined` — a falsy value — and its trace is empty: no plugin step
(`verifyConditions`, `analyzeCommits`, `verifyRelease`, `generateNotes`,
`addChannel`, `prepare`, `publish`, `success`, `fail`) is invoked. -/
theorem c6_pr_gate (env : Env) (opts : Options)
    (h1 : env.isCi = true) (h2 : env.isPr = true) (h3 : opts.noCi = false) :
    runMain env opts = ([], RunRes.undef) := by
  simp [runMain, h1, h2, h3]

/-- C6 witness: the concrete pull-request environment. -/
theorem c6_pr_gate_witness : runMain c6Env okOpts = ([], RunRes.undef) :=
  c6_pr_gate c6Env okOpts rfl rfl rfl

/-- C3: when `analyzeCommits` yields a release type but the computed next
version does not satisfy the active branch's range, `run` throws
`EINVALIDNEXTVERSION` and `verifyRelease` is never invoked (the trace up to
the failure holds only `verifyConditions`, loop events, and
`analyzeCommits`). -/
theorem c3_invalid_next_version (env : Env) (opts : Options) (branch : Branch)
    (t : RelType) (levs : List Ev)
    (h1 : (env.isCi && env.isPr && !opts.noCi) = false)
    (h2 : configVerifyErrors env.isGitRepo (decide (opts.repositoryUrl ≠ ""))
      opts.tagFormat env.verifyTagNameOk env.verifyBranchNameOk
      (opts.branches.map Branch.toEntry) = [])
    (h3 : opts.branches.find? (fun b => decide (b.name = env.ciBranch)) = some branch)
    (h4 : env.verifyAuthOk = true)
    (h5 : env.verifyConditionsRes = none)
    (h6 : runLoop env branch env.gitAuthUrl (getReleasesToAdd branch opts) = (levs, none, []))
    (h7 : env.lastCommitsOk = none)
    (h8 : env.analyzeRes = .ok (some t))
    (h9 : env.satisfies
      (getNextVersion branch t (getLastRelease branch opts.tagFormat none)) branch.range
      = false) :
    (runMain env opts).2 = RunRes.thrown (.single (mkErr "EINVALIDNEXTVERSION")) ∧
    Ev.evVerifyRelease ∉ (runMain env opts).1 := by
  have hlev : ∀ e ∈ levs, e.isLoopEv = true := by
    intro e he
    have := runLoop_events env branch env.gitAuthUrl (getReleasesToAdd branch opts) e
    rw [h6] at this
    exact this he
  have h2' : configVerifyErrors env.isGitRepo (!decide (opts.repositoryUrl = ""))
      opts.tagFormat env.verifyTagNameOk env.verifyBranchNameOk
      (opts.branches.map Branch.toEntry) = [] := by simpa using h2
  have hmain : runMain env opts =
      (Ev.evVerifyConditions :: levs ++ [Ev.evAnalyzeCommits],
        RunRes.thrown (.single (mkErr "EINVALIDNEXTVERSION"))) := by
    simp [runMain, h1, h2', h3, h4, h5, h6, h7, h8, h9]
  rw [hmain]
  refine ⟨rfl, ?_⟩
  intro hmem
  rcases List.mem_cons.mp hmem with h | h
  · simp at h
  rcases List.mem_append.mp h with h | h
  · have := hlev _ h
    simp [Ev.isLoopEv] at this
  · simp at h

/-- C3 witness: the concrete failing-range environment. -/
theorem c3_invalid_next_version_witness :
    (runMain c3Env okOpts).2 = RunRes.thrown (.single (mkErr "EINVALIDNEXTVERSION")) ∧
    Ev.evVerifyRelease ∉ (runMain c3Env okOpts).1 :=
  c3_invalid_next_version c3Env okOpts simpleBranch RelType.minor []
    (by rfl) (by rfl) (by rfl) (by rfl) (by rfl) (by rfl) (by rfl) (by rfl) (by rfl)

/-- C7: when `verifyAuth` fails, `run` returns `false` (a falsy value) if the
local branch is behind its remote, and otherwise throws `EGITNOPERMISSION`;
in both cases the trace is empty — in particular no tag is created. -/
theorem c7_auth_failure (env : Env) (opts : Options) (branch : Branch)
    (h1 : (env.isCi && env.isPr && !opts.noCi) = false)
    (h2 : configVerifyErrors env.isGitRepo (decide (opts.repositoryUrl ≠ ""))
      opts.tagFormat env.verifyTagNameOk env.verifyBranchNameOk
      (opts.branches.map Branch.toEntry) = [])
    (h3 : opts.branches.find? (fun b => decide (b.name = env.ciBranch)) = some branch)
    (h4 : env.verifyAuthOk = false) :
    (env.branchUpToDate = false → runMain env opts = ([], RunRes.retFalse)) ∧
    (env.branchUpToDate = true →
      runMain env opts = ([], RunRes.thrown (.single (mkErr "EGITNOPERMISSION")))) := by
  have h2' : configVerifyErrors env.isGitRepo (!decide (opts.repositoryUrl = ""))
      opts.tagFormat env.verifyTagNameOk env.verifyBranchNameOk
      (opts.branches.map Branch.toEntry) = [] := by simpa using h2
  constructor
  · intro hb
    simp [runMain, h1, h2', h3, h4, hb]
  · intro hb
    simp [runMain, h1, h2', h3, h4, hb]

/-- C7 witness: the concrete stale-clone environment (authorisation fails,
local branch behind). -/
theorem c7_auth_failure_witness : runMain c7Env okOpts = ([], RunRes.retFalse) :=
  (c7_auth_failure c7Env okOpts simpleBranch (by rfl) (by rfl) (by rfl) (by rfl)).1 (by rfl)

/-- `run` itself never emits a `fail` invocation: only the surrounding
handler does. -/
theorem runMain_no_fail (env : Env) (opts : Options) :
    Ev.evFail ∉ (runMain env opts).1 := by
  intro h
  unfold runMain at h
  repeat' split at h
  all_goals try simp [apply_ite Prod.fst] at h
  all_goals repeat' split at h
  all_goals try simp at h
  all_goals
    first
      | exact absurd (runLoop_events _ _ _ _ _ h) (by decide)
      | exact absurd (runLoop_events _ _ _ _ _ h.2) (by decide)

/-- C8: when the run is in dry-run mode — set explicitly or forced by the
non-CI gate, i.e. the effective dry-run flag is set — the `fail` step is
never invoked regardless of which errors are thrown, and the error is still
re-thrown to the caller. -/
theorem c8_dry_run_never_fail (env : Env) (cfg : Except RunErr Options)
    (h : ∀ o, cfg = Except.ok o → effDryRun env o = true) :
    Ev.evFail ∉ (moduleRun env cfg).1 ∧
    (∀ o e, cfg = Except.ok o → (runMain env o).2 = RunRes.thrown e →
      (moduleRun env cfg).2 = RunRes.thrown e) := by
  cases cfg with
  | error e =>
    constructor
    · simp [moduleRun]
    · intro o e' ho
      exact absurd ho (by simp)
  | ok o =>
    have hd : effDryRun env o = true := h o rfl
    have htr : (moduleRun env (Except.ok o)).1 = (runMain env o).1 := by
      rcases hro : runMain env o with ⟨tr, res⟩
      cases res <;> simp [moduleRun, hro, hd]
    constructor
    · rw [htr]
      exact runMain_no_fail env o
    · intro o' e' ho he
      injection ho with ho'
      subst ho'
      rcases hro : runMain env o with ⟨tr, res⟩
      rw [hro] at he
      simp only at he
      subst he
      simp [moduleRun, hro, hd]

/-- C8 witness: an explicit dry-run whose `verifyConditions` throws a
`semanticRelease`-marked error; `fail` is not invoked and the error is
re-thrown. -/
theorem c8_dry_run_never_fail_witness :
    Ev.evFail ∉ (moduleRun c8Env (Except.ok c8Opts)).1 ∧
    (moduleRun c8Env (Except.ok c8Opts)).2 =
      RunRes.thrown (.single (mkErr "EPLUGINBOOM")) :=
  ⟨(c8_dry_run_never_fail c8Env (Except.ok c8Opts)
      (by intro o ho; cases ho; rfl)).1,
    (c8_dry_run_never_fail c8Env (Except.ok c8Opts)
      (by intro o ho; cases ho; rfl)).2 c8Opts (.single (mkErr "EPLUGINBOOM")) rfl (by rfl)⟩

/-- C4: in a non-dry-run invocation that reaches the publish path, the trace
is exactly the preamble (verify-conditions, loop events, analyze, verify,
notes, prepare, regenerated notes) followed by the tag creation, the push,
the publish invocation and — whenever `publish` succeeds — the success
invocation; no publish event occurs in the preamble, so the tag exists
locally and remotely before the first `publish` plugin runs and `success`
runs after `publish`. -/
theorem c4_tag_push_before_publish (env : Env) (opts : Options) (branch : Branch)
    (t : RelType) (levs : List Ev) (s1 s2 : String)
    (h1 : (env.isCi && env.isPr && !opts.noCi) = false)
    (h2 : configVerifyErrors env.isGitRepo (decide (opts.repositoryUrl ≠ ""))
      opts.tagFormat env.verifyTagNameOk env.verifyBranchNameOk
      (opts.branches.map Branch.toEntry) = [])
    (h3 : opts.branches.find? (fun b => decide (b.name = env.ciBranch)) = some branch)
    (h4 : env.verifyAuthOk = true)
    (h5 : env.verifyConditionsRes = none)
    (h6 : runLoop env branch env.gitAuthUrl (getReleasesToAdd branch opts) = (levs, none, []))
    (h7 : env.lastCommitsOk = none)
    (h8 : env.analyzeRes = .ok (some t))
    (h9 : env.satisfies
      (getNextVersion branch t (getLastRelease branch opts.tagFormat none)) branch.range
      = true)
    (h10 : env.verifyReleaseRes = none)
    (h11 : effDryRun env opts = false)
    (h12 : env.notesRes = .ok s1)
    (h13 : env.prepareRes = none)
    (h14 : env.notesRes2 = .ok s2)
    (h15 : env.tagOk = none)
    (h16 : env.pushOk = none) :
    (runMain env opts).1 =
      (Ev.evVerifyConditions :: levs ++ [Ev.evAnalyzeCommits, Ev.evVerifyRelease,
        Ev.evGenerateNotes, Ev.evPrepare, Ev.evGenerateNotes]) ++
      [Ev.evTag (finalNextRelease env opts branch t).gitTag env.headAfterPrepare,
        Ev.evPush env.gitAuthUrl branch.name,
        Ev.evPublish (finalNextRelease env opts branch t)] ++
      (match env.publishRes with
       | some _ => []
       | none => [Ev.evSuccess]) ∧
    ∀ ni, Ev.evPublish ni ∉
      Ev.evVerifyConditions :: levs ++ [Ev.evAnalyzeCommits, Ev.evVerifyRelease,
        Ev.evGenerateNotes, Ev.evPrepare, Ev.evGenerateNotes] := by
  have h2' : configVerifyErrors env.isGitRepo (!decide (opts.repositoryUrl = ""))
      opts.tagFormat env.verifyTagNameOk env.verifyBranchNameOk
      (opts.branches.map Branch.toEntry) = [] := by simpa using h2
  constructor
  · cases hpub : env.publishRes with
    | some e =>
      simp [runMain, finalNextRelease, h1, h2', h3, h4, h5, h6, h7, h8, h9, h10, h11, h12,
        h13, h14, h15, h16, hpub]
    | none =>
      cases hsucc : env.successRes with
      | some e =>
        simp [runMain, finalNextRelease, h1, h2', h3, h4, h5, h6, h7, h8, h9, h10, h11,
          h12, h13, h14, h15, h16, hpub, hsucc]
      | none =>
        simp [runMain, finalNextRelease, h1, h2', h3, h4, h5, h6, h7, h8, h9, h10, h11,
          h12, h13, h14, h15, h16, hpub, hsucc]
  · intro ni hmem
    rcases List.mem_cons.mp hmem with hx | hx
    · simp at hx
    rcases List.mem_append.mp hx with hx | hx
    · have hl := runLoop_events env branch env.gitAuthUrl (getReleasesToAdd branch opts)
        (Ev.evPublish ni)
      rw [h6] at hl
      have := hl hx
      simp [Ev.isLoopEv] at this
    · simp at hx

/-- C4 witness: the all-success environment; the trace ends with tag, push,
publish, success in that order with no earlier publish. -/
theorem c4_tag_push_before_publish_witness :
    (runMain okEnv okOpts).1 =
      [Ev.evVerifyConditions, Ev.evAnalyzeCommits, Ev.evVerifyRelease,
        Ev.evGenerateNotes, Ev.evPrepare, Ev.evGenerateNotes,
        Ev.evTag (finalNextRelease okEnv okOpts simpleBranch RelType.minor).gitTag "head1",
        Ev.evPush "https://x@host.null/o/r.git" "master",
        Ev.evPublish (finalNextRelease okEnv okOpts simpleBranch RelType.minor),
        Ev.evSuccess] := by
  have h := (c4_tag_push_before_publish okEnv okOpts simpleBranch RelType.minor []
    "notes" "notes2" (by rfl) (by rfl) (by rfl) (by rfl) (by rfl) (by rfl) (by rfl)
    (by rfl) (by rfl) (by rfl) (by rfl) (by rfl) (by rfl) (by rfl) (by rfl) (by rfl)).1
  simpa using h

/-- C5: in a non-dry-run invocation that reaches the tagging step after
`prepare`, the created tag points at the `gitHead` recorded in the
next-release record — which the spec-modelled prepare step has refreshed to
the repository HEAD after `prepare`, so the commits a prepare plugin created
are included in the tag. -/
theorem c5_tag_at_next_release_git_head (env : Env) (opts : Options) (branch : Branch)
    (t : RelType) (levs : List Ev) (s1 s2 : String)
    (h1 : (env.isCi && env.isPr && !opts.noCi) = false)
    (h2 : configVerifyErrors env.isGitRepo (decide (opts.repositoryUrl ≠ ""))
      opts.tagFormat env.verifyTagNameOk env.verifyBranchNameOk
      (opts.branches.map Branch.toEntry) = [])
    (h3 : opts.branches.find? (fun b => decide (b.name = env.ciBranch)) = some branch)
    (h4 : env.verifyAuthOk = true)
    (h5 : env.verifyConditionsRes = none)
    (h6 : runLoop env branch env.gitAuthUrl (getReleasesToAdd branch opts) = (levs, none, []))
    (h7 : env.lastCommitsOk = none)
    (h8 : env.analyzeRes = .ok (some t))
    (h9 : env.satisfies
      (getNextVersion branch t (getLastRelease branch opts.tagFormat none)) branch.range
      = true)
    (h10 : env.verifyReleaseRes = none)
    (h11 : effDryRun env opts = false)
    (h12 : env.notesRes = .ok s1)
    (h13 : env.prepareRes = none)
    (h14 : env.notesRes2 = .ok s2) :
    Ev.evTag (finalNextRelease env opts branch t).gitTag
      (finalNextRelease env opts branch t).gitHead ∈ (runMain env opts).1 ∧
    (finalNextRelease env opts branch t).gitHead = env.headAfterPrepare := by
  have h2' : configVerifyErrors env.isGitRepo (!decide (opts.repositoryUrl = ""))
      opts.tagFormat env.verifyTagNameOk env.verifyBranchNameOk
      (opts.branches.map Branch.toEntry) = [] := by simpa using h2
  refine ⟨?_, rfl⟩
  cases htag : env.tagOk with
  | some e =>
    simp [runMain, finalNextRelease, h1, h2', h3, h4, h5, h6, h7, h8, h9, h10, h11, h12,
      h13, h14, htag]
  | none =>
    cases hpush : env.pushOk with
    | some e =>
      simp [runMain, finalNextRelease, h1, h2', h3, h4, h5, h6, h7, h8, h9, h10, h11,
        h12, h13, h14, htag, hpush]
    | none =>
      cases hpub : env.publishRes with
      | some e =>
        simp [runMain, finalNextRelease, h1, h2', h3, h4, h5, h6, h7, h8, h9, h10, h11,
          h12, h13, h14, htag, hpush, hpub]
      | none =>
        cases hsucc : env.successRes with
        | some e =>
          simp [runMain, finalNextRelease, h1, h2', h3, h4, h5, h6, h7, h8, h9, h10,
            h11, h12, h13, h14, htag, hpush, hpub, hsucc]
        | none =>
          simp [runMain, finalNextRelease, h1, h2', h3, h4, h5, h6, h7, h8, h9, h10,
            h11, h12, h13, h14, htag, hpush, hpub, hsucc]

/-- C5 witness: with a prepare step that moves HEAD from `head0` to `head1`,
the created tag points at the refreshed `nextRelease.gitHead = head1`. -/
theorem c5_tag_at_next_release_git_head_witness :
    Ev.evTag (finalNextRelease okEnv okOpts simpleBranch RelType.minor).gitTag
      (finalNextRelease okEnv okOpts simpleBranch RelType.minor).gitHead ∈
      (runMain okEnv okOpts).1 ∧
    (finalNextRelease okEnv okOpts simpleBranch RelType.minor).gitHead = "head1" :=
  c5_tag_at_next_release_git_head okEnv okOpts simpleBranch RelType.minor [] "notes"
    "notes2" (by rfl) (by rfl) (by rfl) (by rfl) (by rfl) (by rfl) (by rfl) (by rfl)
    (by rfl) (by rfl) (by rfl) (by rfl) (by rfl) (by rfl)

end SemRel
